import Mathlib

/-!
Verification development for the firefly telegram assistant repository.

This file gives a shallow embedding, in Lean, of the claim-relevant parts of
the source files `firefly_sync.py`, `context_loader.py`, `intent_filter.py`,
`main.py` and `final_prompt.py`, and proves (or refutes) the frozen claims
about them.

Modelling conventions, used throughout:
* SQLite tables are association lists; `INSERT OR REPLACE` keyed on the
  integer primary key is `upsert` (replace-in-place, append when the key is
  new), which matches SQLite row counts and key-to-value semantics.
* JSON values decoded by `json.loads` are the inductive `JValue`; numbers are
  modelled as integers since no claim depends on float formatting; a Python
  dict built from JSON keeps the last binding of a duplicate key, hence
  `dictGet` reads the last binding.
* External libraries (the sentence-transformer encoder, numpy/sklearn cosine
  similarity, the OpenAI client, curl) are not code of this repository; they
  enter as function parameters or as an abstract outcome type, and the
  theorems quantify over them.
* Python `str.split` / `str.strip` / `str.lower` are the structural
  `pySplit` / `pyStrip` / `pyLower`; they agree with Python on the ASCII
  data the claims are about.
* The remote-API pagination loop is flattened to the list of records it
  yields; per-page commits do not change the final store state.
-/

namespace Firefly

/-- JSON values as produced by `json.loads`.  Numbers are modelled as
integers (no claim depends on numeric formatting or float semantics). -/
inductive JValue where
  | null : JValue
  | bool : Bool → JValue
  | num : Int → JValue
  | str : String → JValue
  | arr : List JValue → JValue
  | obj : List (String × JValue) → JValue

/-- Python `repr` for JSON-derived values (string escaping inside reprs is
not modelled; no claim inspects reprs of containers). -/
def pyRepr : JValue → String
  | .null => "None"
  | .bool true => "True"
  | .bool false => "False"
  | .num n => toString n
  | .str s => "\x27" ++ s ++ "\x27"
  | .arr l => "[" ++ String.intercalate ", " (l.attach.map fun x => pyRepr x.1) ++ "]"
  | .obj l => "\x7b" ++ String.intercalate ", "
      (l.attach.map fun x => "\x27" ++ x.1.1 ++ "\x27: " ++ pyRepr x.1.2) ++ "\x7d"
decreasing_by
  · have := List.sizeOf_lt_of_mem x.2
    simp at this ⊢
    omega
  · have := List.sizeOf_lt_of_mem x.2
    cases hx : x.1 with
    | mk k v => rw [hx] at this; simp [hx] at this ⊢; omega

/-- Python `str()` for JSON-derived values. -/
def pyStr : JValue → String
  | .str s => s
  | v => pyRepr v

/-- Python truthiness for JSON-derived values. -/
def pyTruthy : JValue → Bool
  | .null => false
  | .bool b => b
  | .num n => n != 0
  | .str s => s != ""
  | .arr l => !l.isEmpty
  | .obj l => !l.isEmpty

/-- `d.get(k)` on a Python dict decoded from JSON: the last binding of the
key wins (as in `json.loads` for duplicate keys). -/
def dictGet (kvs : List (String × JValue)) (k : String) : Option JValue :=
  (kvs.reverse.find? fun p => p.1 = k).map Prod.snd

/-! ### Python string primitives

`str.split(sep)`, `str.strip()`, `str.lower()` and the `in` substring
test, implemented structurally over the character list so that concrete
inputs evaluate by definitional reduction.  They agree with Python on the
ASCII data the claims quantify over (Unicode-only differences: Python
strips additional Unicode whitespace and lowercases beyond ASCII). -/

def startsWithL : List Char → List Char → Bool
  | _, [] => true
  | [], _ :: _ => false
  | c :: cs, d :: ds => c == d && startsWithL cs ds

/-- One step of Python `str.split(sep)` (non-empty `sep`), with fuel: the
fuel is at least the length of the remaining text, so the default case is
never reached. -/
def pySplitFuel (sep : List Char) : Nat → List Char → List Char → List (List Char)
  | 0, l, acc => [acc.reverse ++ l]
  | fuel + 1, l, acc =>
    match l with
    | [] => [acc.reverse]
    | c :: rest =>
      if startsWithL (c :: rest) sep then
        acc.reverse :: pySplitFuel sep fuel (List.drop (sep.length - 1) rest) []
      else
        pySplitFuel sep fuel rest (c :: acc)

/-- Python `s.split(sep)` for a non-empty separator. -/
def pySplit (s sep : String) : List String :=
  (pySplitFuel sep.data (s.data.length + 1) s.data []).map String.mk

def isPyWhitespace (c : Char) : Bool :=
  c == ' ' || c == '\t' || c == '\n' || c == '\r' || c == '\x0b' || c == '\x0c'

/-- Python `s.strip()`. -/
def pyStrip (s : String) : String :=
  String.mk (((s.data.dropWhile isPyWhitespace).reverse.dropWhile isPyWhitespace).reverse)

def pyCharLower (c : Char) : Char :=
  if c.toNat ≥ 65 && c.toNat ≤ 90 then Char.ofNat (c.toNat + 32) else c

/-- Python `s.lower()` (ASCII range). -/
def pyLower (s : String) : String :=
  String.mk (s.data.map pyCharLower)

/-- Python `needle in s` substring test (for a non-empty needle it holds
iff the split yields at least two parts). -/
def strContains (s needle : String) : Bool :=
  2 ≤ (pySplit s needle).length

/-- Python `sep.join(strings)`, structurally. -/
def pyJoinStr (sep : String) : List String → String
  | [] => ""
  | [a] => a
  | a :: rest => a ++ sep ++ pyJoinStr sep rest

/-! ## The Reference Store (`firefly_sync.py`, `init_db`) -/

structure AccountData where
  name : String
  type : String
  currency : String
  lastUpdated : String
deriving DecidableEq, Repr

structure CategoryData where
  name : String
  lastUpdated : String
deriving DecidableEq, Repr

structure BillData where
  name : String
  amountMin : Int
  amountMax : Int
  lastUpdated : String
deriving DecidableEq, Repr

/-- A row of the `transactions` table.  `amount` is stored as REAL in the
source; it is modelled as an integer (truthiness = nonzero matches, and no
claim depends on decimal rendering). -/
structure TransData where
  description : String
  amount : Int
  createdAt : String
  sourceId : Option Int
  destinationId : Option Int
  categoryId : Option Int
  type : String
  sourceName : String
  destinationName : String
  categoryName : String
  lastUpdated : String
deriving DecidableEq, Repr

/-- The local SQLite database `firefly_local.db`.  Tables with an integer
primary key are association lists keyed by that id; `transactions_tags` has
an autoincrement surrogate key and is just a list of
(transaction_id, name) rows in insertion order.  Embedding blobs are the
(abstract) encoder output, a `String`. -/
structure Store where
  accounts : List (Int × AccountData)
  categories : List (Int × CategoryData)
  bills : List (Int × BillData)
  transactions : List (Int × TransData)
  transactionsTags : List (Int × String)
  transactionEmbeddings : List (Int × String)
deriving DecidableEq, Repr

def emptyStore : Store :=
  { accounts := [], categories := [], bills := [], transactions := []
    transactionsTags := [], transactionEmbeddings := [] }

/-- `INSERT OR REPLACE` keyed on the primary key: replace the existing row
in place, or append a fresh row. -/
def upsert (k : Int) (v : α) : List (Int × α) → List (Int × α)
  | [] => [(k, v)]
  | (k₂, v₂) :: rest => if k₂ = k then (k, v) :: rest else (k₂, v₂) :: upsert k v rest

/-- The primary keys of a table, in row order. -/
def tableKeys (l : List (Int × α)) : List Int := l.map Prod.fst

/-- Apply a batch of `INSERT OR REPLACE` statements in order. -/
def applyUpserts (items : List (Int × α)) (l : List (Int × α)) : List (Int × α) :=
  items.foldl (fun acc p => upsert p.1 p.2 acc) l

/-! ## The Sync Engine (`firefly_sync.py`)

The pagination loops are flattened to the list of records the remote API
yields across all pages; a sync run is the fold of the per-record writes.
The JSON plumbing (`item["id"]`, `attrs["transactions"][0]`, defaulting of
missing fields) is applied before the records reach these functions, so a
remote record arrives with its extracted fields. -/

structure RemoteAccount where
  id : Int
  name : String
  type : String
  currency : String
  updatedAt : String

structure RemoteCategory where
  id : Int
  name : String
  updatedAt : String

structure RemoteBill where
  id : Int
  name : String
  amountMin : Int
  amountMax : Int
  updatedAt : String

/-- A remote transaction record after field extraction; `sourceId` and
`destinationId` are the raw `int(trans.get(.., 0))` values (the
`or None` zero-to-null mapping happens at write time). -/
structure RemoteTransaction where
  id : Int
  description : String
  amount : Int
  createdAt : String
  sourceId : Int
  destinationId : Int
  categoryId : Option Int
  type : String
  sourceName : String
  destinationName : String
  categoryName : String
  updatedAt : String
  tags : List String

structure RemoteData where
  accounts : List RemoteAccount
  categories : List RemoteCategory
  bills : List RemoteBill
  transactions : List RemoteTransaction

def accountRow (a : RemoteAccount) : AccountData :=
  { name := a.name, type := a.type, currency := a.currency, lastUpdated := a.updatedAt }

/-- `sync_accounts`: skip `reconciliation` / `initial-balance` accounts,
`INSERT OR REPLACE` the rest keyed by remote id. -/
def accountItems (items : List RemoteAccount) : List (Int × AccountData) :=
  (items.filter fun a =>
    !(a.type == "reconciliation" || a.type == "initial-balance")).map
      fun a => (a.id, accountRow a)

def sync_accounts (items : List RemoteAccount) (s : Store) : Store :=
  { s with accounts := applyUpserts (accountItems items) s.accounts }

def categoryItems (items : List RemoteCategory) : List (Int × CategoryData) :=
  items.map fun c => (c.id, { name := c.name, lastUpdated := c.updatedAt })

def sync_categories (items : List RemoteCategory) (s : Store) : Store :=
  { s with categories := applyUpserts (categoryItems items) s.categories }

def billItems (items : List RemoteBill) : List (Int × BillData) :=
  items.map fun b => (b.id,
    { name := b.name, amountMin := b.amountMin, amountMax := b.amountMax,
      lastUpdated := b.updatedAt })

def sync_bills (items : List RemoteBill) (s : Store) : Store :=
  { s with bills := applyUpserts (billItems items) s.bills }

/-- The stored row for a remote transaction: `int(... or 0) or None` maps a
zero source/destination id to NULL. -/
def transRow (t : RemoteTransaction) : TransData :=
  { description := t.description, amount := t.amount, createdAt := t.createdAt
    sourceId := if t.sourceId = 0 then none else some t.sourceId
    destinationId := if t.destinationId = 0 then none else some t.destinationId
    categoryId := t.categoryId, type := t.type, sourceName := t.sourceName
    destinationName := t.destinationName, categoryName := t.categoryName
    lastUpdated := t.updatedAt }

/-- The tag-association rows one sync run appends: for each remote
transaction, one `INSERT` (not upsert) per non-empty tag, in order. -/
def tagRows (items : List RemoteTransaction) : List (Int × String) :=
  items.flatMap fun t => (t.tags.filter fun tg => tg != "").map fun tg => (t.id, tg)

def transItems (items : List RemoteTransaction) : List (Int × TransData) :=
  items.map fun t => (t.id, transRow t)

/-- `sync_transactions`: `INSERT OR REPLACE` each transaction keyed by its
remote id, and plain-`INSERT` one tag row per non-empty tag. -/
def sync_transactions (items : List RemoteTransaction) (s : Store) : Store :=
  let newTrans := applyUpserts (transItems items) s.transactions
  let newTags := s.transactionsTags ++ tagRows items
  { s with transactions := newTrans, transactionsTags := newTags }

/-- A row of the embedding-backfill query (`SELECT ... GROUP_CONCAT ...
WHERE t.id NOT IN (SELECT transaction_id FROM transaction_embeddings)`). -/
structure EmbRow where
  id : Int
  description : String
  sourceName : String
  destinationName : String
  categoryName : String
  tags : Option String
  amount : Int
deriving DecidableEq, Repr

/-- The tag names associated with a transaction, in table order
(`SELECT name FROM transactions_tags WHERE transaction_id = ?`). -/
def tagsOf (s : Store) (tid : Int) : List String :=
  (s.transactionsTags.filter fun p => p.1 == tid).map Prod.snd

/-- SQLite `GROUP_CONCAT(name, ", ")` under a LEFT JOIN: NULL when the
transaction has no tag rows, else the ", "-joined names. -/
def groupConcat (l : List String) : Option String :=
  if l.isEmpty then none else some (pyJoinStr ", " l)

/-- The backfill query: every transaction without a stored embedding,
with its joined tag aggregate. -/
def embeddingQueryRows (s : Store) : List EmbRow :=
  s.transactions.filterMap fun p =>
    if p.1 ∈ tableKeys s.transactionEmbeddings then none
    else some
      { id := p.1, description := p.2.description, sourceName := p.2.sourceName
        destinationName := p.2.destinationName, categoryName := p.2.categoryName
        tags := groupConcat (tagsOf s p.1), amount := p.2.amount }

/-- The text whose embedding is stored for a transaction,
built exactly as in `store_transaction_embeddings`. -/
def renderEmbeddingText (r : EmbRow) : String :=
  let parts := [r.description]
  let parts := if r.sourceName != "" then
    parts ++ ["source " ++ r.sourceName, "from " ++ r.sourceName] else parts
  let parts := if r.destinationName != "" then
    parts ++ ["destination " ++ r.destinationName, "to " ++ r.destinationName] else parts
  let parts := if r.categoryName != "" then
    parts ++ ["category " ++ r.categoryName] else parts
  let parts := match r.tags with
    | some tg => if tg != "" then parts ++ ["tags " ++ tg] else parts
    | none => parts
  let parts := if r.amount != 0 then parts ++ ["amount " ++ toString r.amount] else parts
  pyJoinStr " " parts

/-- The claim's formula for the embedded text (stated after the spec's
words, for comparison with `renderEmbeddingText` which is translated from
the source): the space-join, in this order, of the description; both
"source ..." and "from ..." phrases when the source name is non-empty;
both "destination ..." and "to ..." phrases when the destination name is
non-empty; "category ..." when the category name is non-empty;
"tags ..." with the comma-joined tag names when the transaction has tags;
and "amount ..." when the amount is nonzero. -/
def specEmbeddingText (s : Store) (r : EmbRow) : String :=
  pyJoinStr " "
    ([r.description]
      ++ (if r.sourceName ≠ "" then ["source " ++ r.sourceName, "from " ++ r.sourceName]
          else [])
      ++ (if r.destinationName ≠ "" then
            ["destination " ++ r.destinationName, "to " ++ r.destinationName]
          else [])
      ++ (if r.categoryName ≠ "" then ["category " ++ r.categoryName] else [])
      ++ (if tagsOf s r.id ≠ [] then
            ["tags " ++ pyJoinStr ", " (tagsOf s r.id)]
          else [])
      ++ (if r.amount ≠ 0 then ["amount " ++ toString r.amount] else []))

/-- `store_transaction_embeddings`: embed every transaction the query
returns and `INSERT OR REPLACE` its blob, keyed by transaction id.
`encode` is the external sentence-transformer (with `.tobytes()`),
abstracted as a function into blobs. -/
def store_transaction_embeddings (encode : String → String) (s : Store) : Store :=
  let newEmb := applyUpserts
    ((embeddingQueryRows s).map fun r => (r.id, encode (renderEmbeddingText r)))
    s.transactionEmbeddings
  { s with transactionEmbeddings := newEmb }

/-- One full Sync Engine run (`main` of `firefly_sync.py`): sync accounts,
categories, bills, transactions, then backfill embeddings. -/
def runSync (encode : String → String) (d : RemoteData) (s : Store) : Store :=
  store_transaction_embeddings encode
    (sync_transactions d.transactions
      (sync_bills d.bills
        (sync_categories d.categories
          (sync_accounts d.accounts s))))

/-- Total row count of the Reference Store, over all six tables. -/
def totalRows (s : Store) : Nat :=
  s.accounts.length + s.categories.length + s.bills.length + s.transactions.length +
    s.transactionsTags.length + s.transactionEmbeddings.length

/-- Number of tag-association rows one sync run appends for remote data. -/
def countTags (d : RemoteData) : Nat :=
  (tagRows d.transactions).length

/-! ## The Context Builder (`context_loader.py`)

`ORDER BY name` on a TEXT column uses SQLite BINARY collation, i.e. byte
order of the UTF-8 encoding, which coincides with Lean's `String` order
(codepoint-lexicographic). -/

/-- `load_accounts`: asset accounts only, ordered by name, as an
id-string to name mapping.  (`insertionSort` is one sorted order; SQL
leaves the order of equal names unspecified.) -/
def load_accounts (s : Store) : List (String × String) :=
  ((s.accounts.filter fun p => p.2.type == "asset").insertionSort
      fun a b => a.2.name ≤ b.2.name).map
    fun p => (toString p.1, p.2.name)

/-- `load_categories`: all category names ordered by name,
empty names dropped (`if r[0]`). -/
def load_categories (s : Store) : List String :=
  ((s.categories.map fun p => p.2.name).insertionSort
      fun a b => a ≤ b).filter fun n => n != ""

/-- `load_tags`: `SELECT DISTINCT name FROM transactions_tags ORDER BY name`,
empty names dropped. -/
def load_tags (s : Store) : List String :=
  (((s.transactionsTags.map Prod.snd).dedup).insertionSort
      fun a b => a ≤ b).filter fun n => n != ""

/-- `load_bills`: bill id to name, ordered by name.  (In the source the
value is a one-field dict holding the name.) -/
def load_bills (s : Store) : List (Int × String) :=
  ((s.bills.insertionSort fun a b => a.2.name ≤ b.2.name).map
    fun p => (p.1, p.2.name))

def accountsSection (l : List (String × String)) : String :=
  "## KNOWN ACCOUNTS:\n" ++
    (if l.isEmpty then "  (No accounts found.)\n"
     else String.join (l.map fun p => "  - \"" ++ p.2 ++ "\" → " ++ p.1 ++ "\n"))

def categoriesSection (l : List String) : String :=
  "## KNOWN CATEGORIES:\n" ++
    (if l.isEmpty then "  (No categories found.)\n"
     else String.join (l.map fun c => "  - " ++ c ++ "\n"))

def tagsSection (l : List String) : String :=
  "## KNOWN TAGS:\n" ++
    (if l.isEmpty then "  (No tags found.)\n"
     else String.join (l.map fun t => "  - " ++ t ++ "\n"))

def billsSection (l : List (Int × String)) : String :=
  "## KNOWN BILLS:\n" ++
    (if l.isEmpty then "  (No bills found.)\n"
     else String.join (l.map fun p => "  - \"" ++ p.2 ++ "\" → " ++ toString p.1 ++ "\n"))

/-- `build_prompt_context`: the four labeled sections joined with blank
lines (each section string already ends in a newline). -/
def build_prompt_context (s : Store) : String :=
  accountsSection (load_accounts s) ++ "\n" ++
    categoriesSection (load_categories s) ++ "\n" ++
    tagsSection (load_tags s) ++ "\n" ++
    billsSection (load_bills s)

/-! ## The Intent Resolver (`intent_filter.py`) -/

/-- `extract_tags_from_input`: Python `"tags:" in user_input` holds exactly
when the split yields at least two parts, and then `parts[0]` / `parts[1]`
are the first two split components. -/
def extract_tags_from_input (user_input : String) : String × List String :=
  match pySplit user_input "tags:" with
  | p0 :: p1 :: _ =>
      (pyStrip p0, (pySplit (pyStrip p1) ",").filterMap fun t =>
        if pyStrip t == "" then none else some (pyLower (pyStrip t)))
  | _ => (user_input, [])

/-- `np.frombuffer(emb, dtype=np.float32)`: fails (ValueError) unless the
byte length is a multiple of four; the float payload of each 32-bit word is
abstracted as the word value (the claims depend only on decode success and
on the abstract similarity scores). -/
def bytesToWords : List Nat → List Int
  | b0 :: b1 :: b2 :: b3 :: rest =>
      Int.ofNat (b0 + 256 * b1 + 65536 * b2 + 16777216 * b3) :: bytesToWords rest
  | _ => []

def npFrombufferF32 (b : List Nat) : Option (List Int) :=
  if b.length % 4 = 0 then some (bytesToWords b) else none

/-- Descending order on (transaction id, similarity) pairs, the comparison
used by `similarities.sort(key=lambda x: x[1], reverse=True)` (Python's
sort is stable, and `reverse=True` keeps equal elements in scan order). -/
def scoreLe (a b : Int × Rat) : Bool := decide (b.2 ≤ a.2)

/-- The successfully scored (transaction_id, similarity) pairs, in table
scan order: a stored blob whose decode raises (wrong byte length, or a
vector whose length does not match the query vector so that
`cosine_similarity` raises) is skipped by the `except` clause.  `simVal`
abstracts the numeric cosine value computed by sklearn. -/
def consideredSims (simVal : List Int → List Int → Rat) (query : List Int)
    (rows : List (Int × List Nat)) : List (Int × Rat) :=
  rows.filterMap fun p =>
    match npFrombufferF32 p.2 with
    | none => none
    | some v => if v.length = query.length then some (p.1, simVal query v) else none

/-- `find_similar_transactions`: embed the query, score every stored
embedding that decodes, sort by descending similarity (stably), take the
top k. -/
def find_similar_transactions (simVal : List Int → List Int → Rat)
    (encodeVec : String → List Int) (desc : String)
    (rows : List (Int × List Nat)) (top_k : Nat) : List (Int × Rat) :=
  ((consideredSims simVal (encodeVec desc) rows).mergeSort scoreLe).take top_k

/-- Python hash-keys of the hashable JSON scalars: `True == 1` and
`False == 0` in Python, so booleans collapse onto their numeric value
inside a set; lists and dicts are unhashable. -/
inductive PyHashKey where
  | kNone : PyHashKey
  | kNum : Int → PyHashKey
  | kStr : String → PyHashKey
deriving DecidableEq

def pyHashKey : JValue → Option PyHashKey
  | .null => some .kNone
  | .bool b => some (.kNum (if b then 1 else 0))
  | .num n => some (.kNum n)
  | .str s => some (.kStr s)
  | _ => none

/-- `list(set(l))` on a list of hashable values, modelled as
first-occurrence deduplication by Python hash-key (the iteration order of a
Python set is unspecified; the claims depend only on membership). -/
def pySetAux : List JValue → List PyHashKey → List JValue
  | [], _ => []
  | x :: xs, seen =>
    match pyHashKey x with
    | some k => if k ∈ seen then pySetAux xs seen else x :: pySetAux xs (k :: seen)
    | none => pySetAux xs seen

def pySet (l : List JValue) : List JValue := pySetAux l []

/-- The transaction proposal dictionary assembled at the end of
`determine_intent` (field per field as in the source). -/
structure Proposal where
  type : JValue
  amount : String
  description : JValue
  source_id : JValue
  destination_id : JValue
  source_name : String
  destination_name : String
  currency_code : JValue
  date : String
  category_name : JValue
  tags : List JValue
  bill_name : String
  bill_id : JValue
  missing_info : List JValue

/-- Outcome of the single model invocation inside `determine_intent`:
either the OpenAI call raised, or it returned text whose `json.loads`
result is `none` (not valid JSON) or `some v`. -/
inductive LLMOutcome where
  | apiError : LLMOutcome
  | response : Option JValue → LLMOutcome

/-- Result of `determine_intent`: `None`, a proposal dict, or an uncaught
exception propagating out of the resolver. -/
inductive IntentResult where
  | noProposal : IntentResult
  | proposal : Proposal → IntentResult
  | raised : IntentResult

/-- Last-binding lookup in a string-keyed Python dict built by
insertion (later bindings overwrite earlier ones). -/
def lastLookup (l : List (String × String)) (k : String) : Option String :=
  (l.reverse.find? fun p => p.1 == k).map Prod.snd

/-- `determine_intent`.  The prompt assembly (context snippet, exemplar
retrieval) only influences the model's reply, which enters as the `llm`
parameter; the returned value depends on the parsed reply, today's date,
the user tags and the account map, exactly as in the source.  There is no
retry: one model invocation outcome determines the result.  `bill_name` is
always empty because the source looks up a lower-cased *string* key in the
integer-keyed bill map (`int != str` in Python).  A reply that parses to a
non-object raises (`.get` on a non-dict), as does a `tags` field that is
not a list (list concatenation) or contains an unhashable element
(`set(...)`). -/
def determine_intent (s : Store) (today : String) (userInputRaw : String)
    (llm : LLMOutcome) : IntentResult :=
  let cleaned := extract_tags_from_input userInputRaw
  let user_input := cleaned.1
  let user_tags := cleaned.2
  match llm with
  | .apiError => .noProposal
  | .response none => .noProposal
  | .response (some data) =>
    match data with
    | .obj kvs =>
      let missing_info : List JValue :=
        match dictGet kvs "missing_info" with
        | some (.arr l) => l
        | some _ => []
        | none => []
      let account_map := load_accounts s
      let bill_id_val := (dictGet kvs "bill_id").getD (.str "unknown")
      let source_id_val := (dictGet kvs "source_id").getD (.str "unknown")
      let destination_id_val := (dictGet kvs "destination_id").getD (.str "unknown")
      let source_id_str := (pyStr source_id_val).toLower
      let destination_id_str := (pyStr destination_id_val).toLower
      let model_tags := (dictGet kvs "tags").getD (.arr [])
      match model_tags with
      | .arr mtags =>
        if mtags.all fun x => (pyHashKey x).isSome then
          .proposal
            { type := (dictGet kvs "type").getD (.str "withdrawal")
              amount := pyStr ((dictGet kvs "amount").getD (.str "0"))
              description := (dictGet kvs "description").getD (.str user_input)
              source_id := source_id_val
              destination_id := destination_id_val
              source_name := (lastLookup account_map source_id_str).getD ""
              destination_name := (lastLookup account_map destination_id_str).getD ""
              currency_code := (dictGet kvs "currency_code").getD (.str "USD")
              date := today
              category_name := (dictGet kvs "category_name").getD (.str "")
              tags := pySet (user_tags.map JValue.str ++ mtags)
              bill_name := ""
              bill_id := bill_id_val
              missing_info := missing_info }
        else .raised
      | _ => .raised
    | _ => .raised

/-! ## The Transaction Submitter (`main.py`, `post_transaction`) -/

/-- Result of `post_transaction`: the success-message string, the bare
`True`, the raw error response (surfaced for the caller to format), the
bare `False`, or an uncaught exception. -/
inductive PostResult where
  | successMessage : String → PostResult
  | successTrue : PostResult
  | errorsResp : JValue → PostResult
  | failedFalse : PostResult
  | raised : PostResult

/-- Python `"errors" in v`: key test for dicts, element equality for lists,
substring test for strings, TypeError (`none`) otherwise. -/
def pyEqStr (k : String) : JValue → Bool
  | .str s => s == k
  | _ => false

def hasKeyTest (k : String) : JValue → Option Bool
  | .obj kvs => some (kvs.any fun p => p.1 == k)
  | .arr l => some (l.any (pyEqStr k))
  | .str s => some (strContains s k)
  | _ => none

/-- `", ".join(v)`: joins a list of strings or the characters of a string;
TypeError otherwise (including a list with a non-string element). -/
def asStrList : List JValue → Option (List String)
  | [] => some []
  | .str s :: rest => (asStrList rest).map fun r => s :: r
  | _ => none

def pyJoin (sep : String) : JValue → Option String
  | .arr l => (asStrList l).map (pyJoinStr sep)
  | .str st => some (pyJoinStr sep (st.toList.map Char.toString))
  | _ => none

/-- The success-path detail extraction of `post_transaction`: index the
first transaction's fields to build the confirmation message (a missing
key or an unjoinable `tags` value raises). -/
def successDetails (x : JValue) : PostResult :=
  match x with
  | .obj xk =>
    match dictGet xk "type", dictGet xk "amount", dictGet xk "currency_code",
          dictGet xk "description", dictGet xk "source_name", dictGet xk "source_id",
          dictGet xk "destination_name", dictGet xk "destination_id",
          dictGet xk "tags", dictGet xk "category_name", dictGet xk "date" with
    | some ty, some am, some cc, some de, some sn, some si, some dn, some di,
      some tg, some cn, some dt =>
      match pyJoin ", " tg with
      | some tjoined => .successMessage
          ("✅ Transaction successfully inserted:\n" ++
           "Type: " ++ pyStr ty ++ "\n" ++
           "Amount: " ++ pyStr am ++ " " ++ pyStr cc ++ "\n" ++
           "Description: " ++ pyStr de ++ "\n" ++
           "Source: " ++ pyStr sn ++ " (ID: " ++ pyStr si ++ ")\n" ++
           "Destination: " ++ pyStr dn ++ " (ID: " ++ pyStr di ++ ")\n" ++
           "Tags: " ++ tjoined ++ "\n" ++
           "Category: " ++ pyStr cn ++ "\n" ++
           "Date: " ++ pyStr dt ++ "\n")
      | none => .raised
    | _, _, _, _, _, _, _, _, _, _, _ => .raised
  | _ => .raised

/-- The success branch of `post_transaction`:
`response.get("data", {}).get("attributes", {}).get("transactions", [])`,
then either the detail message (non-empty list) or the bare `True`. -/
def successBranch (r : JValue) : PostResult :=
  match r with
  | .obj kvs =>
    match (dictGet kvs "data").getD (.obj []) with
    | .obj dk =>
      match (dictGet dk "attributes").getD (.obj []) with
      | .obj ak =>
        let td := (dictGet ak "transactions").getD (.arr [])
        if pyTruthy td then
          match td with
          | .arr (x :: _) => successDetails x
          | _ => .raised
        else .successTrue
      | _ => .raised
    | _ => .raised
  | _ => .raised

/-- `post_transaction`, restricted to its response interpretation (the
payload construction above it is not part of any claim).  `response` is
the `call_firefly_api_curl` result: `none` when curl failed or the body
was not JSON.  There is no retry: the classification of a single response
is final. -/
def post_transaction (response : Option JValue) : PostResult :=
  match response with
  | none => .failedFalse
  | some r =>
    if pyTruthy r then
      match hasKeyTest "errors" r with
      | none => .raised
      | some true => .errorsResp r
      | some false => successBranch r
    else .failedFalse

/-! ## Concrete demonstration data -/

/-- A remote transaction carrying one tag, for the idempotence analysis. -/
def demoRemoteTx : RemoteTransaction :=
  { id := 1, description := "Topup PayPay", amount := 500, createdAt := "2025-01-02"
    sourceId := 0, destinationId := 0, categoryId := none, type := "withdrawal"
    sourceName := "Yucho", destinationName := "PayPay", categoryName := ""
    updatedAt := "2025-01-02", tags := ["food"] }

def demoRemoteData : RemoteData :=
  { accounts := [], categories := [], bills := [], transactions := [demoRemoteTx] }

/-- The proposal produced for input "lunch" and the model reply `{}` on an
empty store on 2026-10-12 (every field defaulted). -/
def pDemo2 : Proposal :=
  { type := .str "withdrawal", amount := "0", description := .str "lunch"
    source_id := .str "unknown", destination_id := .str "unknown"
    source_name := "", destination_name := "", currency_code := .str "USD"
    date := "2026-10-12", category_name := .str "", tags := []
    bill_name := "", bill_id := .str "unknown", missing_info := [] }

/-- The proposal produced for input "pay rent tags:housing,rent" and a
model reply whose tags field is `["extra"]`, on an empty store. -/
def pDemo4 : Proposal :=
  { type := .str "withdrawal", amount := "0", description := .str "pay rent"
    source_id := .str "unknown", destination_id := .str "unknown"
    source_name := "", destination_name := "", currency_code := .str "USD"
    date := "2026-10-12", category_name := .str ""
    tags := [.str "housing", .str "rent", .str "extra"]
    bill_name := "", bill_id := .str "unknown", missing_info := [] }

/-- A store with one transaction carrying two tags, for the embedding
text demonstration. -/
def demoEmbStore : Store :=
  { emptyStore with
      transactions := [(1,
        { description := "Topup PayPay", amount := 500, createdAt := ""
          sourceId := none, destinationId := none, categoryId := none
          type := "withdrawal", sourceName := "Yucho", destinationName := "PayPay"
          categoryName := "", lastUpdated := "" })]
      transactionsTags := [(1, "food"), (1, "monthly")] }

/-- The backfill-query row for the transaction of `demoEmbStore`. -/
def demoEmbRow : EmbRow :=
  { id := 1, description := "Topup PayPay", sourceName := "Yucho"
    destinationName := "PayPay", categoryName := ""
    tags := some "food, monthly", amount := 500 }

/-- Demonstration inputs for the similarity search: one undecodable blob
(three bytes) and two decodable ones. -/
def rowsW : List (Int × List Nat) := [(1, [0, 0, 0]), (2, [1, 0, 0, 0]), (3, [2, 0, 0, 0])]

def simValW : List Int → List Int → Rat := fun _ v => ((v.headD 0 : Int) : Rat)

def encodeVecW : String → List Int := fun _ => [0]

/-- A store whose tag table holds duplicate (transaction_id, name) rows. -/
def demoDupTagStore : Store :=
  { emptyStore with transactionsTags := [(1, "food"), (1, "food")] }

/-- A store holding exactly one mirrored account, of type `expense`. -/
def demoExpenseStore : Store :=
  { emptyStore with accounts :=
      [(7, { name := "Rent", type := "expense", currency := "USD", lastUpdated := "" })] }

/-! ## Helper lemmas about `upsert` and `applyUpserts` -/

theorem tableKeys_nil : tableKeys ([] : List (Int × α)) = [] := rfl

theorem tableKeys_cons (p : Int × α) (l : List (Int × α)) :
    tableKeys (p :: l) = p.1 :: tableKeys l := rfl

theorem length_upsert (k : Int) (v : α) (l : List (Int × α)) :
    (upsert k v l).length = if k ∈ tableKeys l then l.length else l.length + 1 := by
  induction l with
  | nil => simp [upsert, tableKeys]
  | cons p rest ih =>
    obtain ⟨k₂, v₂⟩ := p
    simp only [upsert, tableKeys_cons]
    by_cases hk : k₂ = k
    · subst hk
      simp
    · have hne : ¬ k = k₂ := fun h => hk h.symm
      simp only [if_neg hk, List.length_cons, ih, List.mem_cons, hne, false_or]
      by_cases hm : k ∈ tableKeys rest
      · simp [hm]
      · simp [hm]

theorem tableKeys_upsert_of_mem {k : Int} {l : List (Int × α)} (v : α)
    (h : k ∈ tableKeys l) : tableKeys (upsert k v l) = tableKeys l := by
  induction l with
  | nil => simp [tableKeys] at h
  | cons p rest ih =>
    obtain ⟨k₂, v₂⟩ := p
    rw [tableKeys_cons] at h
    by_cases hk : k₂ = k
    · subst hk
      simp [upsert, tableKeys_cons]
    · have hmem : k ∈ tableKeys rest := by
        rcases List.mem_cons.mp h with h | h
        · exact absurd h.symm hk
        · exact h
      simp only [upsert, if_neg hk, tableKeys_cons, ih hmem]

theorem mem_tableKeys_upsert_self (k : Int) (v : α) (l : List (Int × α)) :
    k ∈ tableKeys (upsert k v l) := by
  induction l with
  | nil => simp [upsert, tableKeys]
  | cons p rest ih =>
    obtain ⟨k₂, v₂⟩ := p
    by_cases hk : k₂ = k
    · subst hk
      simp [upsert, tableKeys_cons]
    · simp only [upsert, if_neg hk, tableKeys_cons, List.mem_cons]
      exact Or.inr ih

theorem mem_tableKeys_upsert_of_mem {j : Int} {l : List (Int × α)} (k : Int) (v : α)
    (h : j ∈ tableKeys l) : j ∈ tableKeys (upsert k v l) := by
  induction l with
  | nil => simp [tableKeys] at h
  | cons p rest ih =>
    obtain ⟨k₂, v₂⟩ := p
    rw [tableKeys_cons] at h
    by_cases hk : k₂ = k
    · subst hk
      simpa [upsert, tableKeys_cons] using h
    · simp only [upsert, if_neg hk, tableKeys_cons, List.mem_cons] at h ⊢
      rcases h with h | h
      · exact Or.inl h
      · exact Or.inr (ih h)

theorem mem_tableKeys_applyUpserts_of_mem {j : Int} {l : List (Int × α)}
    (items : List (Int × α)) (h : j ∈ tableKeys l) :
    j ∈ tableKeys (applyUpserts items l) := by
  induction items generalizing l with
  | nil => exact h
  | cons p rest ih => exact ih (mem_tableKeys_upsert_of_mem p.1 p.2 h)

theorem mem_tableKeys_applyUpserts_of_mem_items {j : Int} {v : α}
    {items : List (Int × α)} (l : List (Int × α)) (h : (j, v) ∈ items) :
    j ∈ tableKeys (applyUpserts items l) := by
  induction items generalizing l with
  | nil => simp at h
  | cons p rest ih =>
    rcases List.mem_cons.mp h with h | h
    · subst h
      exact mem_tableKeys_applyUpserts_of_mem rest (mem_tableKeys_upsert_self j v l)
    · exact ih (upsert p.1 p.2 l) h

theorem applyUpserts_preserves {items l : List (Int × α)}
    (h : ∀ p ∈ items, p.1 ∈ tableKeys l) :
    tableKeys (applyUpserts items l) = tableKeys l ∧
      (applyUpserts items l).length = l.length := by
  induction items generalizing l with
  | nil => exact ⟨rfl, rfl⟩
  | cons p rest ih =>
    have hp : p.1 ∈ tableKeys l := h p (List.mem_cons_self p rest)
    have hkeys : tableKeys (upsert p.1 p.2 l) = tableKeys l :=
      tableKeys_upsert_of_mem p.2 hp
    have hlen : (upsert p.1 p.2 l).length = l.length := by
      rw [length_upsert, if_pos hp]
    have hrest : ∀ q ∈ rest, q.1 ∈ tableKeys (upsert p.1 p.2 l) := by
      intro q hq
      rw [hkeys]
      exact h q (List.mem_cons_of_mem p hq)
    obtain ⟨ih1, ih2⟩ := ih hrest
    exact ⟨ih1.trans hkeys, ih2.trans hlen⟩

theorem length_applyUpserts_self (items l₀ : List (Int × α)) :
    (applyUpserts items (applyUpserts items l₀)).length =
      (applyUpserts items l₀).length :=
  (applyUpserts_preserves fun p hp =>
    mem_tableKeys_applyUpserts_of_mem_items l₀ (by simpa using hp)).2

theorem tableKeys_applyUpserts_self (items l₀ : List (Int × α)) :
    tableKeys (applyUpserts items (applyUpserts items l₀)) =
      tableKeys (applyUpserts items l₀) :=
  (applyUpserts_preserves fun p hp =>
    mem_tableKeys_applyUpserts_of_mem_items l₀ (by simpa using hp)).1

/-! ## Sync Engine lemmas -/

/-- After the embedding backfill, every transaction id has a stored
embedding. -/
theorem backfill_covers (encode : String → String) (u : Store) {j : Int}
    (h : j ∈ tableKeys u.transactions) :
    j ∈ tableKeys (store_transaction_embeddings encode u).transactionEmbeddings := by
  by_cases hin : j ∈ tableKeys u.transactionEmbeddings
  · exact mem_tableKeys_applyUpserts_of_mem _ hin
  · obtain ⟨p, hp, hpj⟩ := List.mem_map.mp h
    subst hpj
    have hrow : (⟨p.1, p.2.description, p.2.sourceName, p.2.destinationName,
        p.2.categoryName, groupConcat (tagsOf u p.1), p.2.amount⟩ : EmbRow)
        ∈ embeddingQueryRows u := by
      apply List.mem_filterMap.mpr
      exact ⟨p, hp, by rw [if_neg hin]⟩
    exact mem_tableKeys_applyUpserts_of_mem_items _
      (List.mem_map.mpr ⟨_, hrow, rfl⟩)

/-- When every transaction already has an embedding, the backfill query is
empty. -/
theorem embeddingQueryRows_eq_nil {u : Store}
    (h : ∀ j ∈ tableKeys u.transactions, j ∈ tableKeys u.transactionEmbeddings) :
    embeddingQueryRows u = [] := by
  rw [embeddingQueryRows, List.filterMap_eq_nil_iff]
  intro p hp
  rw [if_pos (h p.1 (List.mem_map_of_mem Prod.fst hp))]

/-- When every transaction already has an embedding, the backfill step
leaves the store unchanged. -/
theorem backfill_noop (encode : String → String) {u : Store}
    (h : ∀ j ∈ tableKeys u.transactions, j ∈ tableKeys u.transactionEmbeddings) :
    store_transaction_embeddings encode u = u := by
  unfold store_transaction_embeddings
  rw [embeddingQueryRows_eq_nil h]
  rfl

/-- After one full sync run every transaction id has a stored embedding. -/
theorem runSync_covered (encode : String → String) (d : RemoteData) (s : Store) :
    ∀ j ∈ tableKeys (runSync encode d s).transactions,
      j ∈ tableKeys (runSync encode d s).transactionEmbeddings := by
  intro j hj
  exact backfill_covers encode _ hj

/-- A second sync run over unchanged transactions leaves the embedding
table unchanged. -/
theorem runSync_emb_stable (encode : String → String) (d : RemoteData) (s1 : Store)
    (hkeys : tableKeys (applyUpserts (transItems d.transactions) s1.transactions)
      = tableKeys s1.transactions)
    (hcov : ∀ j ∈ tableKeys s1.transactions, j ∈ tableKeys s1.transactionEmbeddings) :
    (runSync encode d s1).transactionEmbeddings = s1.transactionEmbeddings := by
  have hnoop : store_transaction_embeddings encode
      (sync_transactions d.transactions (sync_bills d.bills
        (sync_categories d.categories (sync_accounts d.accounts s1))))
      = sync_transactions d.transactions (sync_bills d.bills
        (sync_categories d.categories (sync_accounts d.accounts s1))) := by
    apply backfill_noop
    intro j hj
    have hto : tableKeys (sync_transactions d.transactions (sync_bills d.bills
        (sync_categories d.categories (sync_accounts d.accounts s1)))).transactions
        = tableKeys s1.transactions := hkeys
    rw [hto] at hj
    exact hcov j hj
  calc (runSync encode d s1).transactionEmbeddings
      = (sync_transactions d.transactions (sync_bills d.bills
          (sync_categories d.categories
            (sync_accounts d.accounts s1)))).transactionEmbeddings :=
        congrArg Store.transactionEmbeddings hnoop
    _ = s1.transactionEmbeddings := rfl

/-! ## Claim C1 -/

/-- **C1** (amended): running the Sync Engine a second time over the same
remote data with no time advance leaves the accounts, categories, bills,
transactions and embedding tables with exactly their previous row counts
(re-applying the same remote record replaces by key and creates no
duplicate row for the same remote id), but the tag-association table
gains one row per non-empty tag of every synced transaction on each run,
so the total row count of the store grows by exactly that number — it is
unchanged only when the remote transactions carry no tags. -/
theorem c1_sync_second_run_rowcounts (encode : String → String)
    (d : RemoteData) (s : Store) :
    (runSync encode d (runSync encode d s)).accounts.length
        = (runSync encode d s).accounts.length ∧
    (runSync encode d (runSync encode d s)).categories.length
        = (runSync encode d s).categories.length ∧
    (runSync encode d (runSync encode d s)).bills.length
        = (runSync encode d s).bills.length ∧
    (runSync encode d (runSync encode d s)).transactions.length
        = (runSync encode d s).transactions.length ∧
    (runSync encode d (runSync encode d s)).transactionEmbeddings.length
        = (runSync encode d s).transactionEmbeddings.length ∧
    (runSync encode d (runSync encode d s)).transactionsTags.length
        = (runSync encode d s).transactionsTags.length + countTags d ∧
    totalRows (runSync encode d (runSync encode d s))
        = totalRows (runSync encode d s) + countTags d := by
  have hacc : (runSync encode d (runSync encode d s)).accounts.length
      = (runSync encode d s).accounts.length :=
    length_applyUpserts_self (accountItems d.accounts) s.accounts
  have hcat : (runSync encode d (runSync encode d s)).categories.length
      = (runSync encode d s).categories.length :=
    length_applyUpserts_self (categoryItems d.categories) s.categories
  have hbill : (runSync encode d (runSync encode d s)).bills.length
      = (runSync encode d s).bills.length :=
    length_applyUpserts_self (billItems d.bills) s.bills
  have htrans : (runSync encode d (runSync encode d s)).transactions.length
      = (runSync encode d s).transactions.length :=
    length_applyUpserts_self (transItems d.transactions) s.transactions
  have hemb : (runSync encode d (runSync encode d s)).transactionEmbeddings
      = (runSync encode d s).transactionEmbeddings :=
    runSync_emb_stable encode d (runSync encode d s)
      (tableKeys_applyUpserts_self (transItems d.transactions) s.transactions)
      (runSync_covered encode d s)
  have htags : (runSync encode d (runSync encode d s)).transactionsTags
      = (runSync encode d s).transactionsTags ++ tagRows d.transactions := rfl
  refine ⟨hacc, hcat, hbill, htrans, ?_, ?_, ?_⟩
  · rw [hemb]
  · rw [htags, List.length_append]
    rfl
  · simp only [totalRows]
    rw [hacc, hcat, hbill, htrans, hemb, htags, List.length_append]
    have hct : countTags d = (tagRows d.transactions).length := rfl
    omega

/-- **C1** counterexample to the claim as stated: with one remote
transaction carrying one tag, the second sync run over the same remote
data grows the tag-association table (and hence the total store row
count), because tags are inserted, not upserted. -/
theorem c1_counterexample :
    (runSync id demoRemoteData (runSync id demoRemoteData emptyStore)).transactionsTags.length
        = 2 ∧
    (runSync id demoRemoteData emptyStore).transactionsTags.length = 1 ∧
    totalRows (runSync id demoRemoteData (runSync id demoRemoteData emptyStore)) = 4 ∧
    totalRows (runSync id demoRemoteData emptyStore) = 3 :=
  ⟨rfl, rfl, rfl, rfl⟩

/-! ## Helper lemmas about `pySet` -/

theorem mem_pySetAux_of_mem {v : JValue} :
    ∀ {l : List JValue} {seen : List PyHashKey}, v ∈ pySetAux l seen → v ∈ l := by
  intro l
  induction l with
  | nil => intro seen h; simp [pySetAux] at h
  | cons a rest ih =>
    intro seen h
    rcases ha : pyHashKey a with _ | k
    · simp only [pySetAux, ha] at h
      exact List.mem_cons_of_mem a (ih h)
    · simp only [pySetAux, ha] at h
      by_cases hk : k ∈ seen
      · rw [if_pos hk] at h
        exact List.mem_cons_of_mem a (ih h)
      · rw [if_neg hk] at h
        rcases List.mem_cons.mp h with h | h
        · exact h ▸ List.mem_cons_self a rest
        · exact List.mem_cons_of_mem a (ih h)

theorem mem_pySetAux_str (x : String) :
    ∀ (l : List String) (seen : List PyHashKey),
      JValue.str x ∈ pySetAux (l.map JValue.str) seen ↔
        x ∈ l ∧ PyHashKey.kStr x ∉ seen := by
  intro l
  induction l with
  | nil => intro seen; simp [pySetAux]
  | cons a rest ih =>
    intro seen
    have hkey : pyHashKey (JValue.str a) = some (.kStr a) := rfl
    rw [List.map_cons]
    simp only [pySetAux, hkey]
    by_cases hk : PyHashKey.kStr a ∈ seen
    · rw [if_pos hk, ih]
      constructor
      · rintro ⟨hx, hns⟩
        exact ⟨List.mem_cons_of_mem a hx, hns⟩
      · rintro ⟨hx, hns⟩
        rcases List.mem_cons.mp hx with hx | hx
        · subst hx; exact absurd hk hns
        · exact ⟨hx, hns⟩
    · rw [if_neg hk]
      constructor
      · intro h
        rcases List.mem_cons.mp h with h | h
        · have hax : x = a := by simpa using h
          subst hax
          exact ⟨List.mem_cons_self x rest, hk⟩
        · obtain ⟨hx, hns⟩ := (ih (PyHashKey.kStr a :: seen)).mp h
          have hxa : PyHashKey.kStr x ∉ seen := fun hc =>
            hns (List.mem_cons_of_mem _ hc)
          exact ⟨List.mem_cons_of_mem a hx, hxa⟩
      · rintro ⟨hx, hns⟩
        rcases List.mem_cons.mp hx with hx | hx
        · subst hx
          exact List.mem_cons_self _ _
        · by_cases hxa : x = a
          · subst hxa
            exact List.mem_cons_self _ _
          · refine List.mem_cons_of_mem _ ((ih (PyHashKey.kStr a :: seen)).mpr ⟨hx, ?_⟩)
            intro hc
            rcases List.mem_cons.mp hc with hc | hc
            · exact hxa (by simpa using hc)
            · exact hns hc

theorem mem_pySet_str (x : String) (l : List String) :
    JValue.str x ∈ pySet (l.map JValue.str) ↔ x ∈ l := by
  rw [pySet, mem_pySetAux_str]
  simp

theorem mem_pySet_of_mem {v : JValue} {l : List JValue} (h : v ∈ pySet l) : v ∈ l :=
  mem_pySetAux_of_mem h

/-! ## Claim C2 -/

/-- **C2**: for every successful call to `determine_intent`, the returned
proposal's `date` equals the current local date at resolution time
(`datetime.date.today().isoformat()`), regardless of the user text and of
any date in the model's JSON reply. -/
theorem c2_proposal_date_is_today (s : Store) (today userInputRaw : String)
    (llm : LLMOutcome) (p : Proposal)
    (h : determine_intent s today userInputRaw llm = .proposal p) :
    p.date = today := by
  unfold determine_intent at h
  cases llm with
  | apiError => cases h
  | response o =>
    cases o with
    | none => cases h
    | some data =>
      cases data <;> try (cases h)
      rename_i kvs
      dsimp only at h
      rcases htv : (dictGet kvs "tags").getD (.arr []) with _ | _ | _ | _ | mtags | _ <;>
        rw [htv] at h <;> try (cases h)
      dsimp only at h
      split at h
      · cases h
        rfl
      · cases h

/-- **C2** witness: on 2026-10-12, input "lunch" with model reply `{}`
yields a proposal dated 2026-10-12. -/
theorem c2_witness : pDemo2.date = "2026-10-12" :=
  c2_proposal_date_is_today emptyStore "2026-10-12" "lunch"
    (.response (some (.obj []))) pDemo2 rfl

/-! ## Claim C3 -/

/-- **C3** (amended): `determine_intent` returns no proposal whenever the
model call raises or its reply fails to parse as JSON, and performs no
retry (the resolver consumes a single model-invocation outcome); however
it does not validate the documented top-level keys.  Exactly: a reply
parsing as a JSON object is accepted (returns a proposal) if and only if
its `tags` field — absent defaults to the empty list — is a JSON array of
scalar values (the values Python can place in a set), so acceptance
depends on no other key and the empty object `{}` is accepted; a reply
parsing to a non-object JSON value raises an uncaught error inside the
resolver (`.get` on a non-dict). -/
theorem c3_parse_failure_and_no_key_validation :
    (∀ (s : Store) (today input : String),
      determine_intent s today input (.response none) = .noProposal ∧
      determine_intent s today input .apiError = .noProposal) ∧
    (∀ (s : Store) (today input : String) (kvs : List (String × JValue)),
      (∃ p, determine_intent s today input (.response (some (.obj kvs))) = .proposal p)
        ↔ ∃ mtags, (dictGet kvs "tags").getD (.arr []) = .arr mtags
            ∧ (mtags.all fun x => (pyHashKey x).isSome) = true) ∧
    (∀ (s : Store) (today input : String),
      determine_intent s today input (.response (some .null)) = .raised ∧
      (∀ b, determine_intent s today input (.response (some (.bool b))) = .raised) ∧
      (∀ n, determine_intent s today input (.response (some (.num n))) = .raised) ∧
      (∀ z, determine_intent s today input (.response (some (.str z))) = .raised) ∧
      (∀ l, determine_intent s today input (.response (some (.arr l))) = .raised)) := by
  refine ⟨fun s today input => ⟨rfl, rfl⟩, ?_,
    fun s today input => ⟨rfl, fun b => rfl, fun n => rfl, fun z => rfl, fun l => rfl⟩⟩
  intro s today input kvs
  constructor
  · rintro ⟨p, hp⟩
    unfold determine_intent at hp
    dsimp only at hp
    rcases htv : (dictGet kvs "tags").getD (.arr []) with _ | _ | _ | _ | mtags | _ <;>
      rw [htv] at hp <;> try (cases hp)
    dsimp only at hp
    split at hp
    · rename_i hall
      exact ⟨mtags, rfl, hall⟩
    · cases hp
  · rintro ⟨mtags, htv, hall⟩
    unfold determine_intent
    dsimp only
    rw [htv]
    dsimp only
    rw [if_pos hall]
    exact ⟨_, rfl⟩

/-- **C3** counterexample to the claim as stated: the reply `{}` parses as
a JSON object with *none* of the documented top-level keys, yet the
resolver accepts it and returns a proposal instead of rejecting it. -/
theorem c3_counterexample :
    determine_intent emptyStore "2026-10-12" "lunch"
      (.response (some (.obj []))) = .proposal pDemo2 := rfl

/-! ## Claim C4 -/

/-- **C4**: whenever the input's "tags:" marker yields explicit user tags
`T` and the model reply's `tags` field parses as a list of strings `Ms`,
the returned proposal's tags are exactly the set union of `T` and `Ms`
(membership-wise, with only those strings occurring), and in particular a
superset of `T`. -/
theorem c4_tags_union (s : Store) (today userInputRaw : String)
    (kvs : List (String × JValue)) (Ms : List String) (p : Proposal)
    (hM : dictGet kvs "tags" = some (.arr (Ms.map JValue.str)))
    (hp : determine_intent s today userInputRaw (.response (some (.obj kvs)))
        = .proposal p) :
    (∀ x : String, JValue.str x ∈ p.tags ↔
        x ∈ (extract_tags_from_input userInputRaw).2 ∨ x ∈ Ms) ∧
    (∀ v ∈ p.tags, ∃ x : String, v = JValue.str x) ∧
    (∀ t ∈ (extract_tags_from_input userInputRaw).2, JValue.str t ∈ p.tags) := by
  have hall : ((Ms.map JValue.str).all fun x => (pyHashKey x).isSome) = true := by
    apply List.all_eq_true.mpr
    intro x hx
    obtain ⟨y, _, hy⟩ := List.mem_map.mp hx
    rw [← hy]
    rfl
  have htags : p.tags =
      pySet (((extract_tags_from_input userInputRaw).2 ++ Ms).map JValue.str) := by
    unfold determine_intent at hp
    dsimp only at hp
    rw [hM, Option.getD_some] at hp
    dsimp only at hp
    rw [if_pos hall] at hp
    cases hp
    simp [List.map_append]
  refine ⟨?_, ?_, ?_⟩
  · intro x
    rw [htags, mem_pySet_str]
    exact List.mem_append
  · intro v hv
    rw [htags] at hv
    obtain ⟨y, _, hy⟩ := List.mem_map.mp (mem_pySet_of_mem hv)
    exact ⟨y, hy.symm⟩
  · intro t ht
    rw [htags, mem_pySet_str]
    exact List.mem_append.mpr (Or.inl ht)

/-- **C4** witness: input "pay rent tags:housing,rent" with a model reply
whose tags field is `["extra"]` yields a proposal whose tags contain
"housing" and "rent". -/
theorem c4_witness :
    JValue.str "housing" ∈ pDemo4.tags ∧ JValue.str "rent" ∈ pDemo4.tags := by
  have h := c4_tags_union emptyStore "2026-10-12" "pay rent tags:housing,rent"
    [("tags", JValue.arr [JValue.str "extra"])] ["extra"] pDemo4 rfl rfl
  exact ⟨(h.1 "housing").mpr (Or.inl (by decide)),
    (h.1 "rent").mpr (Or.inl (by decide))⟩

/-! ## Claim C5 -/

/-- The detail-extraction step never yields the `False` or error
classification (it yields a success message or raises). -/
theorem successDetails_not_failure (x : JValue) :
    successDetails x ≠ .failedFalse ∧ ∀ e, successDetails x ≠ .errorsResp e := by
  constructor
  · intro hc
    unfold successDetails at hc
    repeat' split at hc
    all_goals cases hc
  · intro e hc
    unfold successDetails at hc
    repeat' split at hc
    all_goals cases hc

/-- The success branch never yields the `False` or error classification. -/
theorem successBranch_not_failure (r : JValue) :
    successBranch r ≠ .failedFalse ∧ ∀ e, successBranch r ≠ .errorsResp e := by
  constructor
  · intro hc
    unfold successBranch at hc
    repeat' split at hc
    all_goals try dsimp only at hc
    all_goals repeat' split at hc
    all_goals first
      | cases hc
      | exact (successDetails_not_failure _).1 hc
  · intro e hc
    unfold successBranch at hc
    repeat' split at hc
    all_goals try dsimp only at hc
    all_goals repeat' split at hc
    all_goals first
      | cases hc
      | exact (successDetails_not_failure _).2 e hc

/-- **C5** (amended): the Transaction Submitter classifies the remote
response as follows — a missing response or a falsy one (e.g. an empty
object) is a transport/unknown failure (`False`); a truthy response with
an `errors` key is a validation failure and the response carrying the
field-to-messages map is surfaced verbatim; any other truthy response
takes the success path (the presence of a `data` key is **not** required
for success), which never produces either failure classification; no
retry is performed — one response's classification is final. -/
theorem c5_response_classification :
    post_transaction none = .failedFalse ∧
    (∀ r : JValue, pyTruthy r = false → post_transaction (some r) = .failedFalse) ∧
    (∀ r : JValue, pyTruthy r = true → hasKeyTest "errors" r = some true →
      post_transaction (some r) = .errorsResp r) ∧
    (∀ r : JValue, pyTruthy r = true → hasKeyTest "errors" r = some false →
      post_transaction (some r) = successBranch r) ∧
    (∀ r : JValue, successBranch r ≠ .failedFalse ∧
      ∀ e, successBranch r ≠ .errorsResp e) := by
  refine ⟨rfl, ?_, ?_, ?_, successBranch_not_failure⟩
  · intro r htr
    unfold post_transaction
    dsimp only
    rw [htr]
    rfl
  · intro r htr herr
    unfold post_transaction
    dsimp only
    rw [htr, herr]
    rfl
  · intro r htr herr
    unfold post_transaction
    dsimp only
    rw [htr, herr]
    rfl

/-- **C5** counterexample to the claim as stated: a response with neither
a `data` key nor an `errors` key is classified as a *success* (the bare
`True`), not as a transport/unknown failure as the claim asserts. -/
theorem c5_counterexample :
    post_transaction (some (.obj [("foo", .num 1)])) = .successTrue ∧
    (PostResult.successTrue ≠ .failedFalse) := by
  refine ⟨rfl, ?_⟩
  intro hc
  cases hc

/-- **C5** witness: a truthy error response is classified as a validation
failure surfaced verbatim, and an empty-object response as a transport
failure. -/
theorem c5_witness :
    post_transaction (some (.obj [("errors", .obj [("amount", .arr [.str "bad"])])]))
      = .errorsResp (.obj [("errors", .obj [("amount", .arr [.str "bad"])])]) ∧
    post_transaction (some (.obj [])) = .failedFalse := by
  constructor
  · exact c5_response_classification.2.2.1 _ rfl rfl
  · exact c5_response_classification.2.1 _ rfl

/-- The known-tags list is always duplicate-free (`SELECT DISTINCT`). -/
theorem load_tags_nodup (s : Store) : (load_tags s).Nodup := by
  apply List.Nodup.filter
  exact ((List.perm_insertionSort _ _).nodup_iff).mpr
    (List.nodup_dedup (s.transactionsTags.map Prod.snd))

/-! ## Claim C6 -/

/-- **C6** (amended): `build_prompt_context` produces one text block of
exactly four labeled sections — accounts as name-to-id pairs covering
precisely the mirrored accounts of type `asset` (NOT all account types),
categories as a flat list of the non-empty category names, tags as a flat
distinct list of the non-empty tag names, and bills as name-to-id pairs
covering all mirrored bills — and every section that would be empty is
replaced by an explicit "(No ... found.)" placeholder line instead of
being omitted. -/
theorem c6_context_sections (s : Store) :
    build_prompt_context s =
      accountsSection (load_accounts s) ++ "\n"
        ++ categoriesSection (load_categories s) ++ "\n"
        ++ tagsSection (load_tags s) ++ "\n"
        ++ billsSection (load_bills s) ∧
    (∀ idStr name, (idStr, name) ∈ load_accounts s ↔
      ∃ id a, (id, a) ∈ s.accounts ∧ a.type = "asset"
        ∧ idStr = toString id ∧ name = a.name) ∧
    (∀ n, n ∈ load_categories s ↔
      n ≠ "" ∧ ∃ id c, (id, c) ∈ s.categories ∧ c.name = n) ∧
    (∀ n, n ∈ load_tags s ↔ n ≠ "" ∧ ∃ tid, (tid, n) ∈ s.transactionsTags) ∧
    (load_tags s).Nodup ∧
    (∀ id name, (id, name) ∈ load_bills s ↔ ∃ b, (id, b) ∈ s.bills ∧ b.name = name) ∧
    accountsSection [] = "## KNOWN ACCOUNTS:\n  (No accounts found.)\n" ∧
    categoriesSection [] = "## KNOWN CATEGORIES:\n  (No categories found.)\n" ∧
    tagsSection [] = "## KNOWN TAGS:\n  (No tags found.)\n" ∧
    billsSection [] = "## KNOWN BILLS:\n  (No bills found.)\n" := by
  refine ⟨rfl, ?_, ?_, ?_, ?_, ?_, rfl, rfl, rfl, rfl⟩
  · intro idStr name
    simp only [load_accounts, List.mem_map, List.mem_insertionSort, List.mem_filter]
    constructor
    · rintro ⟨⟨id, a⟩, ⟨hmem, hty⟩, heq⟩
      obtain ⟨h1, h2⟩ := Prod.mk.injEq .. ▸ heq
      exact ⟨id, a, hmem, by simpa using hty, h1.symm, h2.symm⟩
    · rintro ⟨id, a, hmem, hty, h1, h2⟩
      exact ⟨(id, a), ⟨hmem, by simpa using hty⟩, by rw [← h1, ← h2]⟩
  · intro n
    simp only [load_categories, List.mem_filter, List.mem_insertionSort, List.mem_map,
      ne_eq, bne_iff_ne]
    constructor
    · rintro ⟨⟨⟨id, c⟩, hmem, hname⟩, hne⟩
      exact ⟨hne, id, c, hmem, hname⟩
    · rintro ⟨hne, id, c, hmem, hname⟩
      exact ⟨⟨(id, c), hmem, hname⟩, hne⟩
  · intro n
    simp only [load_tags, List.mem_filter, List.mem_insertionSort, List.mem_dedup,
      List.mem_map, ne_eq, bne_iff_ne]
    constructor
    · rintro ⟨⟨⟨tid, m⟩, hmem, hname⟩, hne⟩
      exact ⟨hne, tid, by rw [← hname]; exact hmem⟩
    · rintro ⟨hne, tid, hmem⟩
      exact ⟨⟨(tid, n), hmem, rfl⟩, hne⟩
  · exact load_tags_nodup s
  · intro id name
    simp only [load_bills, List.mem_map, List.mem_insertionSort]
    constructor
    · rintro ⟨⟨id2, b⟩, hmem, heq⟩
      obtain ⟨h1, h2⟩ := Prod.mk.injEq .. ▸ heq
      exact ⟨b, by rw [← h1]; exact hmem, h2⟩
    · rintro ⟨b, hmem, hname⟩
      exact ⟨(id, b), hmem, by rw [hname]⟩

/-- **C6** counterexample to the claim as stated: a store holding one
mirrored account of type `expense` renders an accounts section with the
"(No accounts found.)" placeholder — the section covers only `asset`
accounts, not all mirrored accounts regardless of type. -/
theorem c6_counterexample :
    demoExpenseStore.accounts.length = 1 ∧
    load_accounts demoExpenseStore = [] ∧
    build_prompt_context demoExpenseStore =
      "## KNOWN ACCOUNTS:\n  (No accounts found.)\n\n## KNOWN CATEGORIES:\n  (No categories found.)\n\n## KNOWN TAGS:\n  (No tags found.)\n\n## KNOWN BILLS:\n  (No bills found.)\n" :=
  ⟨rfl, rfl, rfl⟩

/-! ## Claim C7 -/

theorem append_ne_empty_left {x : String} (y : String) (hx : x ≠ "") :
    x ++ y ≠ "" := by
  intro h
  apply hx
  have hd := congrArg String.data h
  rw [String.data_append] at hd
  exact String.ext (List.append_eq_nil.mp hd).1

theorem pyJoinStr_ne_empty {a : String} (sep : String) (rest : List String)
    (ha : a ≠ "") : pyJoinStr sep (a :: rest) ≠ "" := by
  cases rest with
  | nil => simpa [pyJoinStr] using ha
  | cons b t =>
    show a ++ sep ++ pyJoinStr sep (b :: t) ≠ ""
    exact append_ne_empty_left _ (append_ne_empty_left _ ha)

theorem tagsOf_mem_ne {s : Store} {tid : Int}
    (htag : ∀ p ∈ s.transactionsTags, p.2 ≠ "") :
    ∀ x ∈ tagsOf s tid, x ≠ "" := by
  intro x hx
  obtain ⟨p, hp, hpx⟩ := List.mem_map.mp hx
  exact hpx ▸ htag p (List.mem_filter.mp hp).1

/-- Every row of the backfill query carries the `GROUP_CONCAT` of the tag
names of its own transaction id. -/
theorem embRow_shape {s : Store} {r : EmbRow} (hr : r ∈ embeddingQueryRows s) :
    r.tags = groupConcat (tagsOf s r.id) := by
  obtain ⟨p, hp, heq⟩ := List.mem_filterMap.mp hr
  split at heq
  · cases heq
  · cases heq
    rfl

/-- **C7**: for every transaction row the embedding backfill processes
(in a store whose tag rows carry non-empty names, as the Sync Engine
writes them), the text whose embedding is stored for it is the
space-join, in order, of: its description; "source {name}" and
"from {name}" when the source name is non-empty; "destination {name}" and
"to {name}" when the destination name is non-empty; "category {name}"
when the category name is non-empty; "tags {comma-joined tags}" when it
has tags; and "amount {amount}" when its amount is nonzero. -/
theorem c7_embedding_text (s : Store)
    (htag : ∀ p ∈ s.transactionsTags, p.2 ≠ "") :
    ∀ r ∈ embeddingQueryRows s,
      renderEmbeddingText r = specEmbeddingText s r ∧
      ∀ encode : String → String,
        (r.id, encode (specEmbeddingText s r)) ∈
          ((embeddingQueryRows s).map fun q => (q.id, encode (renderEmbeddingText q))) := by
  intro r hr
  have hrt : r.tags = groupConcat (tagsOf s r.id) := embRow_shape hr
  have hmain : renderEmbeddingText r = specEmbeddingText s r := by
    unfold renderEmbeddingText specEmbeddingText
    rw [hrt]
    rcases hL : tagsOf s r.id with _ | ⟨a, rest⟩
    · simp only [groupConcat, List.isEmpty_nil, if_true, ne_eq, bne_iff_ne]
      split_ifs <;> simp_all [List.append_assoc]
    · have ha : a ≠ "" := tagsOf_mem_ne htag a (hL ▸ List.mem_cons_self a rest)
      have hjoin : (pyJoinStr ", " (a :: rest) != "") = true := by
        simpa using pyJoinStr_ne_empty ", " rest ha
      simp only [groupConcat, List.isEmpty_cons, if_false, hjoin, ne_eq, bne_iff_ne,
        Bool.false_eq_true, if_true]
      split_ifs <;> simp_all [List.append_assoc]
  refine ⟨hmain, fun encode => List.mem_map.mpr ⟨r, hr, ?_⟩⟩
  rw [hmain]

/-- **C7** witness: a transaction with description "Topup PayPay", source
"Yucho", destination "PayPay", no category, tags food and monthly, and
amount 500 renders exactly the claimed text. -/
theorem c7_witness :
    renderEmbeddingText demoEmbRow = specEmbeddingText demoEmbStore demoEmbRow ∧
    renderEmbeddingText demoEmbRow =
      "Topup PayPay source Yucho from Yucho destination PayPay to PayPay tags food, monthly amount 500" := by
  constructor
  · exact (c7_embedding_text demoEmbStore (by decide) demoEmbRow (by decide)).1
  · rfl

/-! ## Claim C8 -/

theorem scoreLe_trans (a b c : Int × Rat) (hab : scoreLe a b) (hbc : scoreLe b c) :
    scoreLe a c := by
  simp only [scoreLe, decide_eq_true_eq] at hab hbc ⊢
  exact le_trans hbc hab

theorem scoreLe_total (a b : Int × Rat) : scoreLe a b || scoreLe b a := by
  simp only [scoreLe]
  rcases le_total a.2 b.2 with h | h <;> simp [h]

/-- **C8**: `find_similar_transactions` returns at most `top_k` pairs,
ordered by descending similarity; with `top_k` at least the number of
rows it returns every successfully decoded embedding's pair (a
permutation of the scored list); every returned pair comes from a stored
embedding that decodes to a vector of the query's dimension (embeddings
that fail to decode, or whose dimension mismatches so that the cosine
computation raises, are skipped without failing the query); and
equal-score ties keep the original scan order (the equal-score pairs of
the output are a prefix of the equal-score pairs of the scan). -/
theorem c8_find_similar (simVal : List Int → List Int → Rat)
    (encodeVec : String → List Int) (desc : String)
    (rows : List (Int × List Nat)) (top_k : Nat) :
    (find_similar_transactions simVal encodeVec desc rows top_k).length ≤ top_k ∧
    List.Pairwise (fun x y => y.2 ≤ x.2)
      (find_similar_transactions simVal encodeVec desc rows top_k) ∧
    (find_similar_transactions simVal encodeVec desc rows rows.length).Perm
      (consideredSims simVal (encodeVec desc) rows) ∧
    (∀ p ∈ find_similar_transactions simVal encodeVec desc rows top_k,
      p ∈ consideredSims simVal (encodeVec desc) rows) ∧
    (∀ sc : Rat, ∃ tail,
      (find_similar_transactions simVal encodeVec desc rows top_k).filter
          (fun p => p.2 = sc) ++ tail
        = (consideredSims simVal (encodeVec desc) rows).filter (fun p => p.2 = sc)) ∧
    (∀ (tid : Int) (emb : List Nat), (tid, emb) ∈ rows →
      ∀ v, npFrombufferF32 emb = some v → v.length = (encodeVec desc).length →
        (tid, simVal (encodeVec desc) v) ∈ consideredSims simVal (encodeVec desc) rows) ∧
    (∀ p ∈ consideredSims simVal (encodeVec desc) rows,
      ∃ emb v, (p.1, emb) ∈ rows ∧ npFrombufferF32 emb = some v ∧
        v.length = (encodeVec desc).length ∧ p.2 = simVal (encodeVec desc) v) := by
  have hsorted : List.Pairwise (fun x y => scoreLe x y = true)
      ((consideredSims simVal (encodeVec desc) rows).mergeSort scoreLe) :=
    List.sorted_mergeSort scoreLe_trans scoreLe_total _
  refine ⟨?_, ?_, ?_, ?_, ?_, ?_, ?_⟩
  · exact List.length_take_le _ _
  · refine List.Pairwise.sublist (List.take_sublist _ _) (hsorted.imp ?_)
    intro a b hab
    simpa only [scoreLe, decide_eq_true_eq] using hab
  · have hlen : (consideredSims simVal (encodeVec desc) rows).length ≤ rows.length :=
      List.length_filterMap_le _ _
    unfold find_similar_transactions
    rw [List.take_of_length_le (by simpa using hlen)]
    exact List.mergeSort_perm _ _
  · intro p hp
    have hmem := (List.take_sublist _ _).mem hp
    exact List.mem_mergeSort.mp hmem
  · intro sc
    set A := consideredSims simVal (encodeVec desc) rows with hA
    set m := A.mergeSort scoreLe with hm
    have hcA : List.Sublist (A.filter fun p => p.2 = sc) A := List.filter_sublist _
    have hcpair : (A.filter (fun p => p.2 = sc)).Pairwise (fun a b => scoreLe a b = true) := by
      apply List.pairwise_of_forall_mem_list
      intro a ha b hb
      have ha2 : a.2 = sc := by simpa using (List.mem_filter.mp ha).2
      have hb2 : b.2 = sc := by simpa using (List.mem_filter.mp hb).2
      simp [scoreLe, ha2, hb2]
    have hsub : List.Sublist (A.filter fun p => p.2 = sc) m :=
      List.sublist_mergeSort scoreLe_trans scoreLe_total hcpair hcA
    have hflen : (m.filter (fun p => p.2 = sc)).length
        = (A.filter (fun p => p.2 = sc)).length :=
      ((List.mergeSort_perm A scoreLe).filter _).length_eq
    have hfsub : List.Sublist (A.filter fun p => p.2 = sc) (m.filter fun p => p.2 = sc) := by
      have h2 := hsub.filter (fun p => decide (p.2 = sc))
      rw [List.filter_filter] at h2
      simpa [Bool.and_self] using h2
    have hfeq : m.filter (fun p => p.2 = sc) = A.filter (fun p => p.2 = sc) :=
      (hfsub.eq_of_length hflen.symm).symm
    refine ⟨(m.drop top_k).filter (fun p => p.2 = sc), ?_⟩
    calc (m.take top_k).filter (fun p => p.2 = sc)
          ++ (m.drop top_k).filter (fun p => p.2 = sc)
        = ((m.take top_k) ++ (m.drop top_k)).filter (fun p => p.2 = sc) :=
          (List.filter_append _ _).symm
      _ = m.filter (fun p => p.2 = sc) := by rw [List.take_append_drop]
      _ = A.filter (fun p => p.2 = sc) := hfeq
  · intro tid emb hmem v hv hlen
    apply List.mem_filterMap.mpr
    refine ⟨(tid, emb), hmem, ?_⟩
    simp only [hv]
    rw [if_pos hlen]
  · intro p hp
    obtain ⟨⟨tid, emb⟩, hmem, heq⟩ := List.mem_filterMap.mp hp
    rcases hv : npFrombufferF32 emb with _ | v
    · simp only [hv] at heq
      cases heq
    · simp only [hv] at heq
      split at heq
      · cases heq
        exact ⟨emb, v, hmem, hv, by assumption, rfl⟩
      · cases heq

/-- **C8** witness: an undecodable three-byte blob is skipped while a
decodable four-byte blob of matching dimension is scored, and the result
is capped at `top_k`. -/
theorem c8_witness :
    ((2 : Int), ((1 : Int) : Rat)) ∈ consideredSims simValW (encodeVecW "topup") rowsW ∧
    (find_similar_transactions simValW encodeVecW "topup" rowsW 1).length ≤ 1 := by
  have h := c8_find_similar simValW encodeVecW "topup" rowsW 1
  exact ⟨h.2.2.2.2.2.1 2 [1, 0, 0, 0] (by decide) [1] rfl rfl, h.1⟩

/-! ## Claim C9 -/

/-- **C9** (amended): duplicate rows in the transaction-tag table are
de-duplicated only in the known-tags list used for prompting (`SELECT
DISTINCT name`): that list never repeats a name.  The tags portion of the
rendered embedding text (`GROUP_CONCAT` without `DISTINCT`) and the
exemplar tag list loaded by the resolver (`SELECT name FROM
transactions_tags WHERE transaction_id = ?`) both retain the duplicate
rows. -/
theorem c9_dedup_only_in_load_tags :
    (∀ s : Store, (load_tags s).Nodup) ∧
    tagsOf demoDupTagStore 1 = ["food", "food"] ∧
    groupConcat (tagsOf demoDupTagStore 1) = some "food, food" ∧
    load_tags demoDupTagStore = ["food"] :=
  ⟨load_tags_nodup, rfl, rfl, rfl⟩

/-- **C9** counterexample to the claim as stated: with duplicate
`(1, "food")` rows, the exemplar tag list the resolver loads contains
"food" twice, and the embedding text's tags aggregate repeats it as well
— the de-duplication happens only in the known-tags read. -/
theorem c9_counterexample :
    (tagsOf demoDupTagStore 1).count "food" = 2 ∧
    groupConcat (tagsOf demoDupTagStore 1) = some "food, food" :=
  ⟨rfl, rfl⟩

/-! ## Claim C10 -/

/-- **C10**: when the user input contains the "tags:" marker more than
once (the split yields at least three parts), the cleaned input is the
stripped text before the first marker, the tag list is parsed only from
the segment between the first and second markers (lower-cased, trimmed,
empty entries dropped), and all text after the second marker is silently
discarded from both outputs. -/
theorem c10_double_marker (input p0 p1 p2 : String) (rest : List String)
    (h : pySplit input "tags:" = p0 :: p1 :: p2 :: rest) :
    extract_tags_from_input input =
      (pyStrip p0, (pySplit (pyStrip p1) ",").filterMap fun t =>
        if pyStrip t == "" then none else some (pyLower (pyStrip t))) := by
  unfold extract_tags_from_input
  rw [h]

/-- **C10** witness: a doubled marker keeps only the text before the
first marker and the tags between the two markers. -/
theorem c10_witness :
    extract_tags_from_input "pay rent tags:housing,rent tags:ignored extra" =
      ("pay rent", ["housing", "rent"]) := by
  have h := c10_double_marker "pay rent tags:housing,rent tags:ignored extra"
    "pay rent " "housing,rent " "ignored extra" [] (by decide)
  rw [h]
  rfl

end Firefly
